import Mathlib

/-!
# Verification of the `random-access-file` serialization layer

Shallow embedding of `src/lib.rs`: the `Serialize` codec (fixed-width
primitives, `Vec`/slice sequences, `String`/`&str` text) and the
`RandomAccessFile` trait (`read_at`, `write_at`, `append`, `at`) as
implemented for `CFile`.

Bytes are modelled as `Nat` (values `< 256` where relevant), byte streams as
`List Nat`.  The host is 64-bit little-endian (so `usize` has width 8 and the
raw memory reinterpretation used by `serialize` produces the little-endian
bytes of the value).  Errors are an explicit `IOError` type; fallible
operations return `Except IOError`.
-/

set_option linter.unusedVariables false

/-- Model of `std::io::Error`: `unexpectedEof` is the error `read_exact`
produces on a short read, `writeZero` the error `write_all` produces when the
sink accepts zero bytes, `custom k` stands for an arbitrary underlying I/O
failure. -/
inductive IOError : Type where
  | unexpectedEof : IOError
  | writeZero : IOError
  | custom (code : Nat) : IOError
deriving DecidableEq, Repr

/-- The little-endian byte representation (`w` bytes) of a machine integer
whose unsigned value is `n`.  This is the in-memory image that
`slice::from_raw_parts(... as *const u8, w)` exposes on a little-endian
host; bytes beyond width `w` of `n` are simply not part of the image. -/
def toLEBytes : Nat → Nat → List Nat
  | 0, _ => []
  | w + 1, n => n % 256 :: toLEBytes w (n / 256)

/-- Reassemble an unsigned value from little-endian bytes (the reinterpretation
performed by `slice::from_raw_parts((&buffer).as_ptr() as *const $prim, 1)`). -/
def fromLEBytes : List Nat → Nat
  | [] => 0
  | b :: bs => b + 256 * fromLEBytes bs

/-- Model of `Read::read_exact` on an in-memory stream: succeeds returning the
first `n` bytes and the rest of the stream, or fails with `UnexpectedEof` when
fewer than `n` bytes are available. -/
def readExact (n : Nat) (s : List Nat) : Except IOError (List Nat × List Nat) :=
  if s.length < n then .error .unexpectedEof
  else .ok (s.take n, s.drop n)

/-- `serialize` of an unsigned primitive of byte width `w` (from the
`serialize_primitive!` macro): writes the `w` raw bytes of the value. -/
def primEncodeU (w : Nat) (v : Nat) : List Nat := toLEBytes w v

/-- `deserialize` of an unsigned primitive of byte width `w`: `read_exact`
`w` bytes and reinterpret them as the value. -/
def primDecodeU (w : Nat) (s : List Nat) : Except IOError (Nat × List Nat) :=
  match readExact w s with
  | .error e => .error e
  | .ok (buf, rest) => .ok (fromLEBytes buf, rest)

/-- `serialized_len` of an unsigned primitive: the fixed width `$size`. -/
def primSerializedLenU (w : Nat) (v : Nat) : Nat := w

/-- `serialize` of a signed primitive of byte width `w`: the raw bytes of the
two's-complement in-memory representation. -/
def primEncodeI (w : Nat) (i : Int) : List Nat :=
  toLEBytes w (i.emod (2 ^ (8 * w))).toNat

/-- `deserialize` of a signed primitive of byte width `w`: read `w` raw bytes
and reinterpret them as a two's-complement signed value. -/
def primDecodeI (w : Nat) (s : List Nat) : Except IOError (Int × List Nat) :=
  match readExact w s with
  | .error e => .error e
  | .ok (buf, rest) =>
      let n := fromLEBytes buf
      .ok (if n < 2 ^ (8 * w - 1) then (n : Int) else (n : Int) - 2 ^ (8 * w), rest)

/-- `serialized_len` of a signed primitive: the fixed width. -/
def primSerializedLenI (w : Nat) (i : Int) : Nat := w

/-- `serialize` of a floating-point primitive (`f32` with `w = 4`, `f64` with
`w = 8`).  A float value is identified with its IEEE-754 bit pattern, which is
exactly what the raw-memory reinterpretation writes. -/
def primEncodeF (w : Nat) (bits : Nat) : List Nat := toLEBytes w bits

/-- `deserialize` of a floating-point primitive: read `w` raw bytes and
reinterpret them as the float's bit pattern. -/
def primDecodeF (w : Nat) (s : List Nat) : Except IOError (Nat × List Nat) :=
  match readExact w s with
  | .error e => .error e
  | .ok (buf, rest) => .ok (fromLEBytes buf, rest)

/-- `serialized_len` of a floating-point primitive: the fixed width. -/
def primSerializedLenF (w : Nat) (bits : Nat) : Nat := w

/-- Whether an `f32` bit pattern (sign 1, exponent 8, mantissa 23) is a NaN. -/
def isNan32 (bits : Nat) : Bool :=
  decide ((bits / 2 ^ 23) % 2 ^ 8 = 0xFF) && decide (bits % 2 ^ 23 ≠ 0)

/-- Whether an `f64` bit pattern (sign 1, exponent 11, mantissa 52) is a NaN. -/
def isNan64 (bits : Nat) : Bool :=
  decide ((bits / 2 ^ 52) % 2 ^ 11 = 0x7FF) && decide (bits % 2 ^ 52 ≠ 0)

/-- Whether an `f32` bit pattern denotes a (positive or negative) zero. -/
def isZero32 (bits : Nat) : Bool := decide (bits % 2 ^ 31 = 0)

/-- Whether an `f64` bit pattern denotes a (positive or negative) zero. -/
def isZero64 (bits : Nat) : Bool := decide (bits % 2 ^ 63 = 0)

/-- Rust's `==` (`PartialEq`) on `f32`, on bit patterns: IEEE-754 equality.
NaN compares unequal to everything (itself included); `+0.0 == -0.0`; any
other two values are equal exactly when their bit patterns coincide. -/
def f32Eq (a b : Nat) : Bool :=
  if isNan32 a || isNan32 b then false
  else if isZero32 a && isZero32 b then true
  else a == b

/-- Rust's `==` (`PartialEq`) on `f64`, on bit patterns. -/
def f64Eq (a b : Nat) : Bool :=
  if isNan64 a || isNan64 b then false
  else if isZero64 a && isZero64 b then true
  else a == b

/-- The element-decoding loop of `Vec::<$prim>::deserialize`
(`for _ in 0..size { match S::deserialize(from) { Ok(x) => ret.push(x),
Err(e) => return Err(e) } }`), parameterized by the element decoder. -/
def deserializeLoop (dec : List Nat → Except IOError (α × List Nat)) :
    Nat → List Nat → Except IOError (List α × List Nat)
  | 0, s => .ok ([], s)
  | n + 1, s =>
      match dec s with
      | .error e => .error e
      | .ok (x, s') =>
          match deserializeLoop dec n s' with
          | .error e => .error e
          | .ok (xs, s'') => .ok (x :: xs, s'')

/-- `Vec::<$prim>::serialize` (and `<&[$prim]>::serialize`, whose body is
identical) for an unsigned element type of width `w`: write the element count
as a `u64`, then the vector's raw memory image in one bulk `write_all` — on a
little-endian host, the concatenation of each element's `w` little-endian
bytes in order. -/
def vecSerializeU (w : Nat) (v : List Nat) : List Nat :=
  primEncodeU 8 v.length ++ v.flatMap (fun e => toLEBytes w e)

/-- `Vec::<$prim>::deserialize` (and slice deserialize) for an unsigned
element type of width `w`: read the `u64` count, then run the element loop. -/
def vecDeserializeU (w : Nat) (s : List Nat) :
    Except IOError (List Nat × List Nat) :=
  match primDecodeU 8 s with
  | .error e => .error e
  | .ok (size, s') => deserializeLoop (primDecodeU w) size s'

/-- `Vec::<$prim>::serialized_len`: `(self.len() * $size + 8) as u64`. -/
def vecSerializedLenU (w : Nat) (v : List Nat) : Nat := v.length * w + 8

/-- `Vec` serialize for a signed element type of width `w`: `u64` count, then
the raw memory image (each element's two's-complement bytes in order). -/
def vecSerializeI (w : Nat) (v : List Int) : List Nat :=
  primEncodeU 8 v.length ++ v.flatMap (fun e => toLEBytes w (e.emod (2 ^ (8 * w))).toNat)

/-- `Vec` deserialize for a signed element type of width `w`. -/
def vecDeserializeI (w : Nat) (s : List Nat) :
    Except IOError (List Int × List Nat) :=
  match primDecodeU 8 s with
  | .error e => .error e
  | .ok (size, s') => deserializeLoop (primDecodeI w) size s'

/-- `Vec` serialized_len for a signed element type of width `w`. -/
def vecSerializedLenI (w : Nat) (v : List Int) : Nat := v.length * w + 8

/-- `Vec` serialize for a float element type (`f32`: `w = 4`, `f64`: `w = 8`),
elements given as bit patterns. -/
def vecSerializeF (w : Nat) (v : List Nat) : List Nat :=
  primEncodeU 8 v.length ++ v.flatMap (fun e => toLEBytes w e)

/-- `Vec` deserialize for a float element type of width `w`. -/
def vecDeserializeF (w : Nat) (s : List Nat) :
    Except IOError (List Nat × List Nat) :=
  match primDecodeU 8 s with
  | .error e => .error e
  | .ok (size, s') => deserializeLoop (primDecodeF w) size s'

/-- `Vec` serialized_len for a float element type of width `w`. -/
def vecSerializedLenF (w : Nat) (v : List Nat) : Nat := v.length * w + 8

/-- The sequence encoding as the spec words it: "first writes the 8-byte
element count, then each element via recursive `encode`" — the count followed
by the concatenation of the per-element `serialize` outputs (unsigned
elements). -/
def vecSerializeElementwiseU (w : Nat) (v : List Nat) : List Nat :=
  primEncodeU 8 v.length ++ (v.map (fun e => primEncodeU w e)).flatten

/-- Element-wise sequence encoding, signed elements (spec wording). -/
def vecSerializeElementwiseI (w : Nat) (v : List Int) : List Nat :=
  primEncodeU 8 v.length ++ (v.map (fun e => primEncodeI w e)).flatten

/-- Element-wise sequence encoding, float elements (spec wording). -/
def vecSerializeElementwiseF (w : Nat) (v : List Nat) : List Nat :=
  primEncodeU 8 v.length ++ (v.map (fun e => primEncodeF w e)).flatten

/-- `String::from_utf8_lossy`, fuelled helper: decode a UTF-8 byte list into
code points, replacing each maximal invalid subpart with U+FFFD.  Every
recursive call consumes at least one byte, so fuel equal to the byte count
(as supplied by `utf8Lossy`) makes the fuel-exhaustion branch unreachable. -/
def utf8LossyAux : Nat → List Nat → List Nat
  | 0, _ => []
  | _ + 1, [] => []
  | fuel + 1, b :: rest =>
      if b < 0x80 then b :: utf8LossyAux fuel rest
      else if 0xC2 ≤ b && b ≤ 0xDF then
        match rest with
        | c :: rest2 =>
            if 0x80 ≤ c && c ≤ 0xBF then
              ((b - 0xC0) * 0x40 + (c - 0x80)) :: utf8LossyAux fuel rest2
            else 0xFFFD :: utf8LossyAux fuel rest
        | [] => [0xFFFD]
      else if 0xE0 ≤ b && b ≤ 0xEF then
        match rest with
        | c :: rest2 =>
            let contLo : Nat := if b == 0xE0 then 0xA0 else 0x80
            let contHi : Nat := if b == 0xED then 0x9F else 0xBF
            if contLo ≤ c && c ≤ contHi then
              match rest2 with
              | d :: rest3 =>
                  if 0x80 ≤ d && d ≤ 0xBF then
                    ((b - 0xE0) * 0x1000 + (c - 0x80) * 0x40 + (d - 0x80)) ::
                      utf8LossyAux fuel rest3
                  else 0xFFFD :: utf8LossyAux fuel rest2
              | [] => [0xFFFD]
            else 0xFFFD :: utf8LossyAux fuel rest
        | [] => [0xFFFD]
      else if 0xF0 ≤ b && b ≤ 0xF4 then
        match rest with
        | c :: rest2 =>
            let contLo : Nat := if b == 0xF0 then 0x90 else 0x80
            let contHi : Nat := if b == 0xF4 then 0x8F else 0xBF
            if contLo ≤ c && c ≤ contHi then
              match rest2 with
              | d :: rest3 =>
                  if 0x80 ≤ d && d ≤ 0xBF then
                    match rest3 with
                    | e :: rest4 =>
                        if 0x80 ≤ e && e ≤ 0xBF then
                          ((b - 0xF0) * 0x40000 + (c - 0x80) * 0x1000 +
                              (d - 0x80) * 0x40 + (e - 0x80)) ::
                            utf8LossyAux fuel rest4
                        else 0xFFFD :: utf8LossyAux fuel rest3
                    | [] => [0xFFFD]
                  else 0xFFFD :: utf8LossyAux fuel rest2
              | [] => [0xFFFD]
            else 0xFFFD :: utf8LossyAux fuel rest
        | [] => [0xFFFD]
      else 0xFFFD :: utf8LossyAux fuel rest

/-- `String::from_utf8_lossy`: total lossy UTF-8 decoding into a list of code
points; invalid sequences become U+FFFD, the decoding never fails. -/
def utf8Lossy (bytes : List Nat) : List Nat := utf8LossyAux bytes.length bytes

/-- `String::serialize` (and `<&str>::serialize`): `self.as_bytes().serialize`,
i.e. the byte-slice encoding of the string's UTF-8 bytes: `u64` byte count,
then the raw bytes.  A string value is modelled by its UTF-8 byte list. -/
def stringSerialize (s : List Nat) : List Nat := vecSerializeU 1 s

/-- `String::deserialize` (and `<&str>::deserialize`): decode the byte vector,
then `String::from_utf8_lossy` the bytes — the `Ok` branch never turns into
an error. -/
def stringDeserialize (s : List Nat) : Except IOError (List Nat × List Nat) :=
  match vecDeserializeU 1 s with
  | .error e => .error e
  | .ok (bytes, rest) => .ok (utf8Lossy bytes, rest)

/-- `String::serialized_len` / `<&str>::serialized_len`:
`(self.len() + 8) as u64` where `len` is the UTF-8 byte length. -/
def stringSerializedLen (s : List Nat) : Nat := s.length + 8

/-- `std::io::SeekFrom` as used by the code: `SeekFrom::Start(n)` and
`SeekFrom::End(0)`. -/
inductive SeekFrom : Type where
  | start (n : Nat) : SeekFrom
  | fromEnd : SeekFrom
deriving DecidableEq, Repr

/-- The underlying `CFile` capability (external crate `cfile_rs`, an external
collaborator per the spec): seek, read and write over some file state `σ`.
Each operation returns its `Result` together with the successor state — in
Rust the `&mut self` receiver always has a state afterwards, even when the
`Result` is an error.  `read n` returns the bytes it placed into the
caller's `n`-byte buffer (so their count is the returned byte count and is at
most `n` for any conforming implementation); `write data` returns how many
bytes it accepted. -/
structure FileOps (σ : Type) : Type where
  seek : SeekFrom → σ → Except IOError Nat × σ
  read : Nat → σ → Except IOError (List Nat) × σ
  write : List Nat → σ → Except IOError Nat × σ

/-- `CFile::read_at`: `let _ = self.seek(SeekFrom::Start(at as u64));
self.read(dat)` — the seek result is discarded, then a single `read` into a
buffer of length `n`. -/
def read_at (ops : FileOps σ) (at' : Nat) (n : Nat) (s : σ) :
    Except IOError (List Nat) × σ :=
  let s1 := (ops.seek (SeekFrom.start at') s).2
  ops.read n s1

/-- `CFile::write_at`: `let _ = self.seek(SeekFrom::Start(at as u64));
self.write(data)` — the seek result is discarded, then a single `write`. -/
def write_at (ops : FileOps σ) (at' : Nat) (data : List Nat) (s : σ) :
    Except IOError Nat × σ :=
  let s1 := (ops.seek (SeekFrom.start at') s).2
  ops.write data s1

/-- `std::io::Write::write_all`, fuelled helper: call `write` repeatedly,
dropping the accepted bytes each time; `Ok(0)` on a non-empty buffer is the
`WriteZero` error, any `Err` is returned as-is.  Every recursive call removes
at least one byte from `data`, so fuel equal to `data.length` (as supplied by
`write_all`) makes the fuel-exhaustion branch unreachable. -/
def writeAllAux (ops : FileOps σ) : Nat → List Nat → σ → Except IOError Unit × σ
  | _, [], s => (.ok (), s)
  | 0, _ :: _, s => (.error .writeZero, s)
  | fuel + 1, b :: data, s =>
      match ops.write (b :: data) s with
      | (.error e, s') => (.error e, s')
      | (.ok 0, s') => (.error .writeZero, s')
      | (.ok (k + 1), s') => writeAllAux ops fuel ((b :: data).drop (k + 1)) s'

/-- `std::io::Write::write_all` on the modelled file ops. -/
def write_all (ops : FileOps σ) (data : List Nat) (s : σ) :
    Except IOError Unit × σ :=
  writeAllAux ops data.length data s

/-- `CFile::append`: `let _ = self.seek(SeekFrom::End(0));` (seek result
discarded) then `self.write_all(data)`, whose `Ok`/`Err` is returned
unchanged. -/
def append (ops : FileOps σ) (data : List Nat) (s : σ) :
    Except IOError Unit × σ :=
  let s1 := (ops.seek SeekFrom.fromEnd s).2
  write_all ops data s1

/-- The trait's default method `at` (read_byte_at): a stack buffer
`x = &mut [0u8]`, then `read_at(index, x)`; `Ok(_)` (whatever the count)
becomes `Ok(x[0])`, and `Err(e)` is passed through.  After a successful read
of `bs`, `x[0]` is the first byte of `bs` if any byte was read, else the
initial `0`. -/
def atByte (ops : FileOps σ) (index : Nat) (s : σ) : Except IOError Nat × σ :=
  match read_at ops index 1 s with
  | (.ok bs, s') => (.ok (bs.headD 0), s')
  | (.error e, s') => (.error e, s')

/-- A concrete in-memory backing store faithful to file semantics:
`contents` are the bytes, `pos` the cursor.  `caps` is an environment
schedule constraining how many bytes each successive `write` call accepts
(empty list: writes are unconstrained), letting the model exercise partial
writes by the backing store. -/
structure MemFile : Type where
  contents : List Nat
  pos : Nat
  caps : List Nat
deriving DecidableEq, Repr

/-- In-memory `seek`: sets the cursor; never fails. -/
def memSeek (sf : SeekFrom) (m : MemFile) : Except IOError Nat × MemFile :=
  match sf with
  | .start n => (.ok n, { m with pos := n })
  | .fromEnd => (.ok m.contents.length, { m with pos := m.contents.length })

/-- In-memory `read` into an `n`-byte buffer: returns the bytes from the
cursor, up to `n`, advancing the cursor; a read at or past end-of-data
succeeds with zero bytes. -/
def memRead (n : Nat) (m : MemFile) : Except IOError (List Nat) × MemFile :=
  let bs := (m.contents.drop m.pos).take n
  (.ok bs, { m with pos := m.pos + bs.length })

/-- How many of `data`'s bytes the next in-memory `write` call accepts: the
scheduled cap if one is pending, otherwise all of them. -/
def memCap (m : MemFile) (data : List Nat) : Nat :=
  match m.caps with
  | [] => data.length
  | c :: _ => min c data.length

/-- In-memory `write` at the cursor: accepts up to the scheduled cap many
bytes (all of them when the schedule is exhausted or empty), overwrites or
extends the contents there, advances the cursor, and returns the count. -/
def memWrite (data : List Nat) (m : MemFile) : Except IOError Nat × MemFile :=
  let cap := memCap m data
  let written := data.take cap
  let newContents := m.contents.take m.pos ++
    List.replicate (m.pos - m.contents.length) 0 ++ written ++
    m.contents.drop (m.pos + cap)
  (.ok cap, { contents := newContents, pos := m.pos + cap, caps := m.caps.tail })

/-- The in-memory store packaged as the file ops the trait impl runs over. -/
def memOps : FileOps MemFile :=
  { seek := memSeek, read := memRead, write := memWrite }

/-- An environment in which the underlying seek fails (for instance the
descriptor went bad between operations) while reads and writes still succeed
at whatever position the file was left in.  Used to observe that the trait
impl discards the seek result. -/
def badSeekOps : FileOps Unit :=
  { seek := fun _ _ => (.error (.custom 3), ())
    read := fun n _ => (.ok (List.replicate n 7), ())
    write := fun data _ => (.ok data.length, ()) }

/-- An environment positioned past end-of-data: every read succeeds but
returns zero bytes, matching `read` at EOF. -/
def eofOps : FileOps Unit :=
  { seek := fun _ _ => (.ok 0, ())
    read := fun _ _ => (.ok [], ())
    write := fun data _ => (.ok data.length, ()) }

-- Basic lemmas about the byte-level codec.

theorem toLEBytes_length (w n : Nat) : (toLEBytes w n).length = w := by
  induction w generalizing n with
  | zero => rfl
  | succ w ih => simp [toLEBytes, ih]

theorem mod_add_mul_div_mod (n a b : Nat) (ha : 0 < a) :
    n % a + a * (n / a % b) = n % (a * b) := by
  have hdvd : a ∣ a * b := Dvd.intro b rfl
  have h1 : n % (a * b) % a = n % a := Nat.mod_mod_of_dvd n hdvd
  have h2 : n % (a * b) / a = n / a % b := Nat.mod_mul_right_div_self n a b
  have h3 : a * (n % (a * b) / a) + n % (a * b) % a = n % (a * b) :=
    Nat.div_add_mod _ a
  rw [h1, h2] at h3
  omega

theorem fromLEBytes_toLEBytes (w n : Nat) :
    fromLEBytes (toLEBytes w n) = n % 2 ^ (8 * w) := by
  induction w generalizing n with
  | zero => simp [toLEBytes, fromLEBytes, Nat.mod_one]
  | succ w ih =>
      have h256 : (0 : Nat) < 256 := by norm_num
      calc fromLEBytes (toLEBytes (w + 1) n)
          = n % 256 + 256 * (n / 256 % 2 ^ (8 * w)) := by
            simp [toLEBytes, fromLEBytes, ih]
        _ = n % (256 * 2 ^ (8 * w)) := mod_add_mul_div_mod n 256 (2 ^ (8 * w)) h256
        _ = n % 2 ^ (8 * (w + 1)) := by ring_nf

theorem fromLEBytes_toLEBytes_of_lt {w n : Nat} (h : n < 2 ^ (8 * w)) :
    fromLEBytes (toLEBytes w n) = n := by
  rw [fromLEBytes_toLEBytes, Nat.mod_eq_of_lt h]

theorem primDecodeU_short {w : Nat} {s : List Nat} (h : s.length < w) :
    primDecodeU w s = .error .unexpectedEof := by
  simp [primDecodeU, readExact, h]

theorem primDecodeU_ok {w : Nat} {s : List Nat} (h : w ≤ s.length) :
    primDecodeU w s = .ok (fromLEBytes (s.take w), s.drop w) := by
  simp [primDecodeU, readExact, Nat.not_lt.mpr h]

theorem primDecodeI_short {w : Nat} {s : List Nat} (h : s.length < w) :
    primDecodeI w s = .error .unexpectedEof := by
  simp [primDecodeI, readExact, h]

theorem primDecodeI_ok {w : Nat} {s : List Nat} (h : w ≤ s.length) :
    primDecodeI w s = .ok
      (if fromLEBytes (s.take w) < 2 ^ (8 * w - 1) then (fromLEBytes (s.take w) : Int)
       else (fromLEBytes (s.take w) : Int) - 2 ^ (8 * w), s.drop w) := by
  simp [primDecodeI, readExact, Nat.not_lt.mpr h]

theorem primDecodeF_short {w : Nat} {s : List Nat} (h : s.length < w) :
    primDecodeF w s = .error .unexpectedEof := by
  simp [primDecodeF, readExact, h]

theorem primDecodeF_ok {w : Nat} {s : List Nat} (h : w ≤ s.length) :
    primDecodeF w s = .ok (fromLEBytes (s.take w), s.drop w) := by
  simp [primDecodeF, readExact, Nat.not_lt.mpr h]

theorem take_append_of_length {l r : List Nat} {w : Nat} (h : l.length = w) :
    (l ++ r).take w = l := by
  subst h; simp

theorem drop_append_of_length {l r : List Nat} {w : Nat} (h : l.length = w) :
    (l ++ r).drop w = r := by
  subst h; simp

theorem primDecodeU_encode {w v : Nat} (h : v < 2 ^ (8 * w)) (r : List Nat) :
    primDecodeU w (primEncodeU w v ++ r) = .ok (v, r) := by
  have hlen : (toLEBytes w v).length = w := toLEBytes_length w v
  rw [primEncodeU, primDecodeU_ok (by simp [hlen]),
    take_append_of_length hlen, drop_append_of_length hlen,
    fromLEBytes_toLEBytes_of_lt h]

theorem primDecodeF_encode {w bits : Nat} (h : bits < 2 ^ (8 * w)) (r : List Nat) :
    primDecodeF w (primEncodeF w bits ++ r) = .ok (bits, r) := by
  have hlen : (toLEBytes w bits).length = w := toLEBytes_length w bits
  rw [primEncodeF, primDecodeF_ok (by simp [hlen]),
    take_append_of_length hlen, drop_append_of_length hlen,
    fromLEBytes_toLEBytes_of_lt h]

theorem primDecodeI_encode {w : Nat} {i : Int} (hw : 0 < w)
    (hlo : -(2 ^ (8 * w - 1)) ≤ i) (hhi : i < 2 ^ (8 * w - 1)) (r : List Nat) :
    primDecodeI w (primEncodeI w i ++ r) = .ok (i, r) := by
  have hM : (0 : Int) < 2 ^ (8 * w) := by positivity
  have hsplit : (2 : Int) ^ (8 * w) = 2 * 2 ^ (8 * w - 1) := by
    rw [← pow_succ']
    congr 1
    omega
  have hem0 : 0 ≤ i.emod (2 ^ (8 * w)) := Int.emod_nonneg i (by omega)
  have hemM : i.emod (2 ^ (8 * w)) < 2 ^ (8 * w) := Int.emod_lt_of_pos i hM
  have hn : ((i.emod (2 ^ (8 * w))).toNat : Int) = i.emod (2 ^ (8 * w)) :=
    Int.toNat_of_nonneg hem0
  have hnlt : (i.emod (2 ^ (8 * w))).toNat < 2 ^ (8 * w) := by
    have : ((2 : Int) ^ (8 * w)) = ((2 ^ (8 * w) : Nat) : Int) := by push_cast; ring
    omega
  have hlen : (toLEBytes w (i.emod (2 ^ (8 * w))).toNat).length = w :=
    toLEBytes_length w _
  rw [primEncodeI, primDecodeI_ok (by simp [hlen]),
    take_append_of_length hlen, drop_append_of_length hlen,
    fromLEBytes_toLEBytes_of_lt hnlt]
  have hcastH : ((2 : Int) ^ (8 * w - 1)) = ((2 ^ (8 * w - 1) : Nat) : Int) := by
    push_cast; ring
  have hcastM : ((2 : Int) ^ (8 * w)) = ((2 ^ (8 * w) : Nat) : Int) := by
    push_cast; ring
  rcases le_or_lt 0 i with hpos | hneg
  · have hemod : i.emod (2 ^ (8 * w)) = i := by
      apply Int.emod_eq_of_lt hpos
      omega
    have hbranch : (i.emod (2 ^ (8 * w))).toNat < 2 ^ (8 * w - 1) := by
      rw [hemod]
      omega
    rw [if_pos hbranch]
    congr 1
    congr 1
    omega
  · have hiM : (i + 2 ^ (8 * w)) % (2 ^ (8 * w)) = i + 2 ^ (8 * w) := by
      apply Int.emod_eq_of_lt (by omega) (by omega)
    have hemod : i.emod (2 ^ (8 * w)) = i + 2 ^ (8 * w) := by
      have h := Int.add_mul_emod_self_left (a := i) (b := 2 ^ (8 * w)) (c := 1)
      rw [mul_one] at h
      show i % (2 ^ (8 * w)) = i + 2 ^ (8 * w)
      rw [← h, hiM]
    have hbranch : ¬ (i.emod (2 ^ (8 * w))).toNat < 2 ^ (8 * w - 1) := by
      rw [hemod] at hn ⊢
      omega
    rw [if_neg hbranch]
    congr 1
    congr 1
    omega

theorem deserializeLoop_short {α : Type} (dec : List Nat → Except IOError (α × List Nat))
    (w : Nat) (hw : 0 < w)
    (hshort : ∀ s, s.length < w → dec s = .error .unexpectedEof)
    (hstep : ∀ s, w ≤ s.length → ∃ x, dec s = .ok (x, s.drop w)) :
    ∀ (n : Nat) (s : List Nat), s.length < w * n →
      deserializeLoop dec n s = .error .unexpectedEof := by
  intro n
  induction n with
  | zero => intro s h; omega
  | succ n ih =>
      intro s h
      rcases Nat.lt_or_ge s.length w with hlt | hge
      · simp [deserializeLoop, hshort s hlt]
      · obtain ⟨x, hx⟩ := hstep s hge
        have hrec : (s.drop w).length < w * n := by
          simp only [List.length_drop]
          have hms : w * (n + 1) = w * n + w := by ring
          omega
        simp [deserializeLoop, hx, ih _ hrec]

theorem deserializeLoop_ok {α : Type} (dec : List Nat → Except IOError (α × List Nat))
    (w : Nat)
    (hstep : ∀ s, w ≤ s.length → ∃ x, dec s = .ok (x, s.drop w)) :
    ∀ (n : Nat) (s : List Nat), w * n ≤ s.length →
      ∃ out, deserializeLoop dec n s = .ok (out, s.drop (w * n)) := by
  intro n
  induction n with
  | zero => intro s h; exact ⟨[], by simp [deserializeLoop]⟩
  | succ n ih =>
      intro s h
      have hge : w ≤ s.length := by
        have hms : w * (n + 1) = w * n + w := by ring
        omega
      obtain ⟨x, hx⟩ := hstep s hge
      have hrec : w * n ≤ (s.drop w).length := by
        simp only [List.length_drop]
        have hms : w * (n + 1) = w * n + w := by ring
        omega
      obtain ⟨out, hout⟩ := ih (s.drop w) hrec
      refine ⟨x :: out, ?_⟩
      have hdrop : (s.drop w).drop (w * n) = s.drop (w * (n + 1)) := by
        rw [List.drop_drop]
        congr 1
        have hms : w * (n + 1) = w * n + w := by ring
        omega
      simp [deserializeLoop, hx, hout, hdrop]

theorem deserializeLoop_flatMap {α : Type} (dec : List Nat → Except IOError (α × List Nat))
    (enc : α → List Nat) :
    ∀ (v : List α) (rest : List Nat),
      (∀ x ∈ v, ∀ r, dec (enc x ++ r) = .ok (x, r)) →
      deserializeLoop dec v.length (v.flatMap enc ++ rest) = .ok (v, rest) := by
  intro v
  induction v with
  | nil => intro rest h; simp [deserializeLoop]
  | cons x v ih =>
      intro rest h
      have hx := h x (List.mem_cons_self x v) (v.flatMap enc ++ rest)
      have hrec := ih rest (fun y hy r => h y (List.mem_cons_of_mem x hy) r)
      simp only [List.flatMap_cons, List.length_cons, List.append_assoc]
      simp [deserializeLoop, hx, hrec]

theorem flatMap_length_const {α : Type} (f : α → List Nat) (w : Nat)
    (h : ∀ x, (f x).length = w) :
    ∀ v : List α, (v.flatMap f).length = v.length * w := by
  intro v
  induction v with
  | nil => simp
  | cons x v ih => simp [ih, h x, Nat.succ_mul, Nat.add_comm]

theorem flatMap_eq_flatten_map {α β : Type} (f : α → List β) (v : List α) :
    v.flatMap f = (v.map f).flatten := by
  induction v with
  | nil => simp
  | cons x v ih => simp [ih]

theorem memCap_le (m : MemFile) (data : List Nat) : memCap m data ≤ data.length := by
  unfold memCap
  cases m.caps with
  | nil => exact le_rfl
  | cons c cs => exact Nat.min_le_right c data.length

theorem memWrite_at_end (data : List Nat) (m : MemFile)
    (hpos : m.pos = m.contents.length) :
    memWrite data m = (.ok (memCap m data),
      { contents := m.contents ++ data.take (memCap m data),
        pos := m.pos + memCap m data, caps := m.caps.tail }) := by
  unfold memWrite
  have h1 : m.contents.take m.pos = m.contents := by
    rw [hpos, List.take_length]
  have h2 : List.replicate (m.pos - m.contents.length) (0 : Nat) = [] := by
    rw [hpos, Nat.sub_self, List.replicate_zero]
  have h3 : m.contents.drop (m.pos + memCap m data) = [] := by
    apply List.drop_eq_nil_of_le
    omega
  simp only [h1, h2, h3, List.append_nil, List.nil_append]

theorem writeAllAux_memOps_append :
    ∀ (fuel : Nat) (data : List Nat) (m : MemFile),
      data.length ≤ fuel → m.pos = m.contents.length →
      (writeAllAux memOps fuel data m).1 = .ok () →
      ((writeAllAux memOps fuel data m).2).contents = m.contents ++ data := by
  intro fuel
  induction fuel with
  | zero =>
      intro data m hlen hpos hok
      cases data with
      | nil => simp [writeAllAux]
      | cons b d => simp at hlen
  | succ fuel ih =>
      intro data m hlen hpos hok
      cases data with
      | nil => simp [writeAllAux]
      | cons b d =>
          have hw : memOps.write (b :: d) m = (.ok (memCap m (b :: d)),
              { contents := m.contents ++ (b :: d).take (memCap m (b :: d)),
                pos := m.pos + memCap m (b :: d), caps := m.caps.tail }) :=
            memWrite_at_end (b :: d) m hpos
          rcases hcap : memCap m (b :: d) with _ | k
          · rw [hcap] at hw
            rw [writeAllAux, hw] at hok
            simp at hok
          · rw [hcap] at hw
            have hcaple : k + 1 ≤ (b :: d).length := hcap ▸ memCap_le m (b :: d)
            have htake : ((b :: d).take (k + 1)).length = k + 1 := by
              rw [List.length_take]
              omega
            have hstep : writeAllAux memOps (fuel + 1) (b :: d) m =
                writeAllAux memOps fuel ((b :: d).drop (k + 1))
                  { contents := m.contents ++ (b :: d).take (k + 1),
                    pos := m.pos + (k + 1), caps := m.caps.tail } := by
              rw [writeAllAux, hw]
            rw [hstep] at hok ⊢
            have hdroplen : ((b :: d).drop (k + 1)).length ≤ fuel := by
              rw [List.length_drop]
              simp only [List.length_cons] at hlen ⊢
              omega
            have hpos2 : m.pos + (k + 1) =
                (m.contents ++ (b :: d).take (k + 1)).length := by
              rw [List.length_append, htake, hpos]
            have := ih ((b :: d).drop (k + 1))
              { contents := m.contents ++ (b :: d).take (k + 1),
                pos := m.pos + (k + 1), caps := m.caps.tail }
              hdroplen hpos2 hok
            rw [this]
            rw [List.append_assoc, List.take_append_drop]

/-- Claim C2: for every value of a supported type — unsigned, signed and
float primitives of any width (including `usize`, width 8), `Vec`/slice of a
primitive, and `String`/`&str` — the number of bytes `serialize` writes to
the sink equals `serialized_len` exactly: the fixed width for primitives,
`8 + width * count` for sequences, `8 + byte_length` for text. -/
theorem claim_C2_length_law :
    (∀ w v, (primEncodeU w v).length = primSerializedLenU w v) ∧
    (∀ w i, (primEncodeI w i).length = primSerializedLenI w i) ∧
    (∀ w bits, (primEncodeF w bits).length = primSerializedLenF w bits) ∧
    (∀ w v, (vecSerializeU w v).length = vecSerializedLenU w v) ∧
    (∀ w v, (vecSerializeI w v).length = vecSerializedLenI w v) ∧
    (∀ w v, (vecSerializeF w v).length = vecSerializedLenF w v) ∧
    (∀ s, (stringSerialize s).length = stringSerializedLen s) := by
  have hU : ∀ w (v : List Nat),
      (v.flatMap (fun e => toLEBytes w e)).length = v.length * w :=
    fun w => flatMap_length_const _ w (fun x => toLEBytes_length w x)
  have hI : ∀ w (v : List Int),
      (v.flatMap (fun e => toLEBytes w (e.emod (2 ^ (8 * w))).toNat)).length =
        v.length * w :=
    fun w => flatMap_length_const _ w (fun x => toLEBytes_length w _)
  refine ⟨?_, ?_, ?_, ?_, ?_, ?_, ?_⟩
  · intro w v
    simp [primEncodeU, primSerializedLenU, toLEBytes_length]
  · intro w i
    simp [primEncodeI, primSerializedLenI, toLEBytes_length]
  · intro w bits
    simp [primEncodeF, primSerializedLenF, toLEBytes_length]
  · intro w v
    simp [vecSerializeU, vecSerializedLenU, primEncodeU, toLEBytes_length, hU w v]
    omega
  · intro w v
    simp [vecSerializeI, vecSerializedLenI, primEncodeU, toLEBytes_length, hI w v]
    omega
  · intro w v
    simp [vecSerializeF, vecSerializedLenF, primEncodeU, toLEBytes_length, hU w v]
    omega
  · intro s
    simp [stringSerialize, stringSerializedLen, vecSerializeU, primEncodeU,
      toLEBytes_length, hU 1 s]
    omega

/-- Claim C9: for every sequence of a supported primitive type, the byte
stream the implementation produces (8-byte count, then one bulk write of the
vector's raw memory image) is byte-for-byte the 8-byte count followed by the
concatenation of each element's individual `serialize` output in order. -/
theorem claim_C9_bulk_eq_elementwise :
    (∀ w v, vecSerializeU w v = vecSerializeElementwiseU w v) ∧
    (∀ w v, vecSerializeI w v = vecSerializeElementwiseI w v) ∧
    (∀ w v, vecSerializeF w v = vecSerializeElementwiseF w v) := by
  refine ⟨?_, ?_, ?_⟩
  · intro w v
    rw [vecSerializeU, vecSerializeElementwiseU, flatMap_eq_flatten_map]
    rfl
  · intro w v
    rw [vecSerializeI, vecSerializeElementwiseI, flatMap_eq_flatten_map]
    rfl
  · intro w v
    rw [vecSerializeF, vecSerializeElementwiseF, flatMap_eq_flatten_map]
    rfl

/-- Claim C1, counterexample: the round-trip law `decode(encode(v)) == v`
fails at the `f32` value NaN (bit pattern 0x7FC00000): deserializing the
serialized bytes returns the identical bit pattern, but Rust's `==` on `f32`
(IEEE-754 equality) makes a NaN unequal to itself, so `decode(encode(v)) == v`
is false for this supported primitive value. -/
theorem claim_C1_counterexample :
    primDecodeF 4 (primEncodeF 4 0x7FC00000) = .ok (0x7FC00000, []) ∧
    f32Eq 0x7FC00000 0x7FC00000 = false := by
  refine ⟨rfl, by decide⟩

/-- Claim C1, amended: for every supported primitive value, deserializing the
serialized bytes yields the value back exactly (bit-identically, with the
rest of the stream untouched): unsigned values in range round-trip, signed
values in two's-complement range round-trip, float bit patterns round-trip;
and Rust's `==` then also holds whenever the value is not a float NaN. -/
theorem claim_C1_roundtrip_amended :
    (∀ w v, v < 2 ^ (8 * w) → ∀ r, primDecodeU w (primEncodeU w v ++ r) = .ok (v, r)) ∧
    (∀ w i, 0 < w → -(2 ^ (8 * w - 1)) ≤ i → i < 2 ^ (8 * w - 1) →
      ∀ r, primDecodeI w (primEncodeI w i ++ r) = .ok (i, r)) ∧
    (∀ w bits, bits < 2 ^ (8 * w) → ∀ r,
      primDecodeF w (primEncodeF w bits ++ r) = .ok (bits, r)) ∧
    (∀ bits, isNan32 bits = false → f32Eq bits bits = true) ∧
    (∀ bits, isNan64 bits = false → f64Eq bits bits = true) := by
  refine ⟨?_, ?_, ?_, ?_, ?_⟩
  · intro w v h r
    exact primDecodeU_encode h r
  · intro w i hw hlo hhi r
    exact primDecodeI_encode hw hlo hhi r
  · intro w bits h r
    exact primDecodeF_encode h r
  · intro bits h
    simp [f32Eq, h]
  · intro bits h
    simp [f64Eq, h]

/-- Claim C1, witness: the amended round trip evaluated at `0x12345678 : u32`,
`-129 : i16`, the `f64` bit pattern of `1.0`, and non-NaN float equality at
`1.0f32` and `0.0f64`. -/
theorem claim_C1_witness :
    primDecodeU 4 (primEncodeU 4 0x12345678 ++ [1, 2]) = .ok (0x12345678, [1, 2]) ∧
    primDecodeI 2 (primEncodeI 2 (-129) ++ [7]) = .ok (-129, [7]) ∧
    primDecodeF 8 (primEncodeF 8 0x3FF0000000000000 ++ []) =
      .ok (0x3FF0000000000000, []) ∧
    f32Eq 0x3F800000 0x3F800000 = true ∧
    f64Eq 0 0 = true :=
  ⟨claim_C1_roundtrip_amended.1 4 0x12345678 (by decide) [1, 2],
   claim_C1_roundtrip_amended.2.1 2 (-129) (by decide) (by decide) (by decide) [7],
   claim_C1_roundtrip_amended.2.2.1 8 0x3FF0000000000000 (by decide) [],
   claim_C1_roundtrip_amended.2.2.2.1 0x3F800000 (by decide),
   claim_C1_roundtrip_amended.2.2.2.2 0 (by decide)⟩

theorem deserializeLoop_u8 :
    ∀ (n : Nat) (s : List Nat), n ≤ s.length →
      deserializeLoop (primDecodeU 1) n s = .ok (s.take n, s.drop n) := by
  intro n
  induction n with
  | zero => intro s h; simp [deserializeLoop]
  | succ n ih =>
      intro s h
      cases s with
      | nil => simp at h
      | cons b bs =>
          have hdec : primDecodeU 1 (b :: bs) = .ok (b, bs) := by
            rw [primDecodeU_ok (by simp)]
            simp [fromLEBytes]
          have hbs : n ≤ bs.length := by
            simp only [List.length_cons] at h
            omega
          simp [deserializeLoop, hdec, ih bs hbs]

/-- Claim C3: whenever the 8-byte length prefix of a source promises `N`
elements but the remaining bytes hold fewer than `N` complete elements' worth
(`< w * N` bytes for element width `w`), sequence deserialize — unsigned,
signed or float element type alike — returns the short-read error
`UnexpectedEof` and never a partially populated sequence. -/
theorem claim_C3_short_read_fails :
    ∀ (w : Nat) (s : List Nat), 0 < w → 8 ≤ s.length →
      s.length - 8 < w * fromLEBytes (s.take 8) →
      vecDeserializeU w s = .error .unexpectedEof ∧
      vecDeserializeI w s = .error .unexpectedEof ∧
      vecDeserializeF w s = .error .unexpectedEof := by
  intro w s hw h8 hshort
  have hdec := primDecodeU_ok (w := 8) (s := s) h8
  have hslen : (s.drop 8).length < w * fromLEBytes (s.take 8) := by
    rw [List.length_drop]
    exact hshort
  refine ⟨?_, ?_, ?_⟩
  · simp only [vecDeserializeU, hdec]
    exact deserializeLoop_short _ w hw (fun t ht => primDecodeU_short ht)
      (fun t ht => ⟨fromLEBytes (t.take w), primDecodeU_ok ht⟩) _ _ hslen
  · simp only [vecDeserializeI, hdec]
    exact deserializeLoop_short _ w hw (fun t ht => primDecodeI_short ht)
      (fun t ht => ⟨_, primDecodeI_ok ht⟩) _ _ hslen
  · simp only [vecDeserializeF, hdec]
    exact deserializeLoop_short _ w hw (fun t ht => primDecodeF_short ht)
      (fun t ht => ⟨fromLEBytes (t.take w), primDecodeF_ok ht⟩) _ _ hslen

/-- Claim C3, witness: a prefix promising 3 four-byte elements over only 5
remaining bytes makes all three sequence decoders fail with `UnexpectedEof`. -/
theorem claim_C3_witness :
    vecDeserializeU 4 (toLEBytes 8 3 ++ [1, 2, 3, 4, 5]) = .error .unexpectedEof ∧
    vecDeserializeI 4 (toLEBytes 8 3 ++ [1, 2, 3, 4, 5]) = .error .unexpectedEof ∧
    vecDeserializeF 4 (toLEBytes 8 3 ++ [1, 2, 3, 4, 5]) = .error .unexpectedEof :=
  claim_C3_short_read_fails 4 (toLEBytes 8 3 ++ [1, 2, 3, 4, 5])
    (by decide) (by decide) (by decide)

/-- Claim C5: whenever the 8-byte length framing of a text value is
satisfiable from the source (the prefixed byte count is available), `String`
(and `&str`) deserialize succeeds, returning the lossy UTF-8 decoding of
exactly those bytes: the byte content can never cause an error — invalid
UTF-8 is replaced (with U+FFFD) by `utf8Lossy` rather than rejected. -/
theorem claim_C5_text_decode_total :
    ∀ s : List Nat, 8 + fromLEBytes (s.take 8) ≤ s.length →
      stringDeserialize s =
        .ok (utf8Lossy ((s.drop 8).take (fromLEBytes (s.take 8))),
          (s.drop 8).drop (fromLEBytes (s.take 8))) := by
  intro s h
  have h8 : 8 ≤ s.length := by omega
  have hdec := primDecodeU_ok (w := 8) (s := s) h8
  have hn : fromLEBytes (s.take 8) ≤ (s.drop 8).length := by
    rw [List.length_drop]
    omega
  have hloop := deserializeLoop_u8 (fromLEBytes (s.take 8)) (s.drop 8) hn
  simp only [stringDeserialize, vecDeserializeU, hdec, hloop]

/-- Claim C5, witness: a framing-valid source whose payload `[0x41, 0xFF]` is
invalid UTF-8 decodes successfully, the bad byte replaced by U+FFFD. -/
theorem claim_C5_witness :
    stringDeserialize (toLEBytes 8 2 ++ [0x41, 0xFF]) = .ok ([0x41, 0xFFFD], []) := by
  have h := claim_C5_text_decode_total (toLEBytes 8 2 ++ [0x41, 0xFF]) (by decide)
  rw [h]
  rfl

/-- Claim C6: for every finite sequence of a supported primitive type
(elements in the type's value range, length representable in the `u64`
prefix), deserializing the serialized bytes succeeds and yields exactly the
original sequence — same length, equal elements at every position — with
nothing left over. -/
theorem claim_C6_sequence_roundtrip :
    ∀ w, 0 < w →
      (∀ v : List Nat, v.length < 2 ^ 64 → (∀ x ∈ v, x < 2 ^ (8 * w)) →
        vecDeserializeU w (vecSerializeU w v) = .ok (v, [])) ∧
      (∀ v : List Int, v.length < 2 ^ 64 →
        (∀ x ∈ v, -(2 ^ (8 * w - 1)) ≤ x ∧ x < 2 ^ (8 * w - 1)) →
        vecDeserializeI w (vecSerializeI w v) = .ok (v, [])) ∧
      (∀ v : List Nat, v.length < 2 ^ 64 → (∀ x ∈ v, x < 2 ^ (8 * w)) →
        vecDeserializeF w (vecSerializeF w v) = .ok (v, [])) := by
  intro w hw
  refine ⟨?_, ?_, ?_⟩
  · intro v hlen hrange
    have hdec : primDecodeU 8 (primEncodeU 8 v.length ++
        v.flatMap (fun e => toLEBytes w e)) =
        .ok (v.length, v.flatMap (fun e => toLEBytes w e)) :=
      primDecodeU_encode (by simpa using hlen) _
    have hloop := deserializeLoop_flatMap (primDecodeU w)
      (fun e => toLEBytes w e) v []
      (fun x hx r => primDecodeU_encode (hrange x hx) r)
    rw [List.append_nil] at hloop
    simp only [vecDeserializeU, vecSerializeU, hdec, hloop]
  · intro v hlen hrange
    have hdec : primDecodeU 8 (primEncodeU 8 v.length ++
        v.flatMap (fun e => toLEBytes w (e.emod (2 ^ (8 * w))).toNat)) =
        .ok (v.length, v.flatMap (fun e => toLEBytes w (e.emod (2 ^ (8 * w))).toNat)) :=
      primDecodeU_encode (by simpa using hlen) _
    have hloop := deserializeLoop_flatMap (primDecodeI w)
      (fun e => toLEBytes w (e.emod (2 ^ (8 * w))).toNat) v []
      (fun x hx r => primDecodeI_encode hw (hrange x hx).1 (hrange x hx).2 r)
    rw [List.append_nil] at hloop
    simp only [vecDeserializeI, vecSerializeI, hdec, hloop]
  · intro v hlen hrange
    have hdec : primDecodeU 8 (primEncodeU 8 v.length ++
        v.flatMap (fun e => toLEBytes w e)) =
        .ok (v.length, v.flatMap (fun e => toLEBytes w e)) :=
      primDecodeU_encode (by simpa using hlen) _
    have hloop := deserializeLoop_flatMap (primDecodeF w)
      (fun e => toLEBytes w e) v []
      (fun x hx r => primDecodeF_encode (hrange x hx) r)
    rw [List.append_nil] at hloop
    simp only [vecDeserializeF, vecSerializeF, hdec, hloop]

/-- Claim C6, witness: the round trip evaluated on a `u16`-style vector
`[1, 515]`, an `i16`-style vector `[-1, 300]`, and an `f32`-bit-pattern
vector `[0x3F800000]`. -/
theorem claim_C6_witness :
    vecDeserializeU 2 (vecSerializeU 2 [1, 515]) = .ok ([1, 515], []) ∧
    vecDeserializeI 2 (vecSerializeI 2 [-1, 300]) = .ok ([-1, 300], []) ∧
    vecDeserializeF 4 (vecSerializeF 4 [0x3F800000]) = .ok ([0x3F800000], []) :=
  ⟨(claim_C6_sequence_roundtrip 2 (by decide)).1 [1, 515] (by decide) (by decide),
   (claim_C6_sequence_roundtrip 2 (by decide)).2.1 [-1, 300] (by decide) (by decide),
   (claim_C6_sequence_roundtrip 4 (by decide)).2.2 [0x3F800000] (by decide) (by decide)⟩

/-- Claim C4, counterexample: in an environment where the underlying seek
fails (`custom 3`) while reads and writes succeed, `read_at`, `write_at` and
`append` all return success — the failure of the internal seek/reposition
step (whose result the code discards with `let _ = self.seek(...)`) is not
surfaced to the caller, contradicting the claim that every underlying I/O
failure, including seek failures, is surfaced as-is. -/
theorem claim_C4_counterexample :
    (badSeekOps.seek (SeekFrom.start 5) ()).1 = .error (.custom 3) ∧
    (read_at badSeekOps 5 1 ()).1 = .ok [7] ∧
    (write_at badSeekOps 5 [1, 2] ()).1 = .ok 2 ∧
    (append badSeekOps [1, 2] ()).1 = .ok () := by
  refine ⟨rfl, rfl, rfl, rfl⟩

/-- Claim C4, amended: each method's result is exactly the result of the
single underlying data operation (`read`, `write`, `write_all`) performed
after repositioning — so read/write failures are surfaced as-is with no
retries and no recovery — while the result of the internal seek/reposition
step is discarded, never surfaced. -/
theorem claim_C4_amended :
    ∀ (σ : Type) (ops : FileOps σ) (a n : Nat) (data : List Nat) (s : σ),
      read_at ops a n s = ops.read n (ops.seek (SeekFrom.start a) s).2 ∧
      write_at ops a data s = ops.write data (ops.seek (SeekFrom.start a) s).2 ∧
      append ops data s = write_all ops data (ops.seek SeekFrom.fromEnd s).2 := by
  intro σ ops a n data s
  exact ⟨rfl, rfl, rfl⟩

/-- Claim C7: for every index, the trait's `at` helper (read_byte_at) behaves
exactly as `read_at` with a 1-byte buffer: it returns an error precisely when
and as `read_at` does, and whenever `read_at` succeeds — including a
zero-length short read past end-of-data — it returns success with the byte
the buffer holds, rather than an end-of-data error. -/
theorem claim_C7_read_byte_matches_read_at :
    ∀ (σ : Type) (ops : FileOps σ) (i : Nat) (s : σ),
      (∀ e, (atByte ops i s).1 = .error e ↔ (read_at ops i 1 s).1 = .error e) ∧
      (∀ bs, (read_at ops i 1 s).1 = .ok bs →
        (atByte ops i s).1 = .ok (bs.headD 0)) := by
  intro σ ops i s
  constructor
  · intro e
    rcases h : read_at ops i 1 s with ⟨r, s'⟩
    cases r <;> simp [atByte, h]
  · intro bs hbs
    rcases h : read_at ops i 1 s with ⟨r, s'⟩
    rw [h] at hbs
    simp only at hbs
    subst hbs
    simp [atByte, h]

/-- Claim C7, witness: past end-of-data the underlying read succeeds with
zero bytes, and the helper reports success with the buffer byte. -/
theorem claim_C7_witness :
    (atByte eofOps 9 ()).1 = .ok (List.headD [] 0) :=
  (claim_C7_read_byte_matches_read_at Unit eofOps 9 ()).2 [] rfl

/-- Claim C8: `append` repositions to the current end of the store and then
either writes the entire payload or surfaces an error: whenever it reports
success on the in-memory store — under any schedule of partial writes by the
backing store — the store's contents are the old contents with the whole
payload appended, never a partially written one. -/
theorem claim_C8_append_all_or_error :
    ∀ (m : MemFile) (data : List Nat),
      (append memOps data m).1 = .ok () →
      ((append memOps data m).2).contents = m.contents ++ data := by
  intro m data hok
  have hpos : ((memOps.seek SeekFrom.fromEnd m).2).pos =
      ((memOps.seek SeekFrom.fromEnd m).2).contents.length := by
    simp [memOps, memSeek]
  have h := writeAllAux_memOps_append data.length data
    ((memOps.seek SeekFrom.fromEnd m).2) le_rfl hpos hok
  simpa [memOps, memSeek] using h

/-- Claim C8, witness: appending five bytes under a write schedule that
forces three partial writes (2, 2, then 1 bytes) still reports success and
leaves the full payload appended. -/
theorem claim_C8_witness :
    ((append memOps [1, 2, 3, 4, 5] ⟨[9, 9], 0, [2, 2, 1]⟩).2).contents =
      [9, 9] ++ [1, 2, 3, 4, 5] :=
  claim_C8_append_all_or_error ⟨[9, 9], 0, [2, 2, 1]⟩ [1, 2, 3, 4, 5] rfl

/-- Claim C10: when the underlying `read_at` succeeds but reads zero bytes
(for instance the index is past end-of-data), the `at` helper returns
`Ok(0)`: the returned byte is deterministically `0`, because the 1-byte
buffer `[0u8]` is zero-initialized and a zero-length read leaves it
untouched. -/
theorem claim_C10_zero_read_gives_zero :
    ∀ (σ : Type) (ops : FileOps σ) (i : Nat) (s : σ),
      (ops.read 1 (ops.seek (SeekFrom.start i) s).2).1 = .ok [] →
      (atByte ops i s).1 = .ok 0 := by
  intro σ ops i s h
  have hra : (read_at ops i 1 s).1 = .ok [] := h
  rcases hh : read_at ops i 1 s with ⟨r, s'⟩
  rw [hh] at hra
  simp only at hra
  subst hra
  simp [atByte, hh, List.headD]

/-- Claim C10, witness: at an end-of-data position the helper returns
exactly `Ok(0)`. -/
theorem claim_C10_witness : (atByte eofOps 3 ()).1 = .ok 0 :=
  claim_C10_zero_read_gives_zero Unit eofOps 3 () rfl
